import Mathlib

/-!
Verification of the dataset-preparation core of the repository: the
`DatasetSharder` batching iterator and the `SmilesMap` identifier map
from `pande_gas.utils`, plus the basic featurizers from
`pande_gas/features/basic.py`.

The implementations of `DatasetSharder` and `SmilesMap` themselves ship
outside `src/` (only their test suite `pande_gas/utils/tests/test_utils.py`
is present), so those components are modelled from the specification text,
pinned where possible by the observable behaviour the tests demand.
Molecules are opaque records carrying a name property and a canonical
(isomeric) SMILES string, exactly the two observables the core reads.
-/

/-- An opaque molecule as seen by this core: a name property (`_Name` in
the tests) and the canonical isomeric SMILES string the external
chemistry toolkit computes for it. -/
structure Molecule where
  name : String
  smiles : String
deriving DecidableEq, Repr

/-- Modelled from the spec: state of a `DatasetSharder` (the class itself
is not under `src/`). `pfx` is the output filename stem (`prefix` in the
source), `flavor` the output extension tag, `index` the shard counter. -/
structure DatasetSharder where
  filename : String
  shard_size : Nat
  write_shards : Bool
  pfx : String
  flavor : String
  index : Nat
deriving DecidableEq, Repr

/-- Splitting a character list on a separator character, the analogue of
`str.split(sep)`: always returns at least one (possibly empty) group. -/
def splitOnChar (c : Char) : List Char → List (List Char)
  | [] => [[]]
  | ch :: rest =>
      let r := splitOnChar c rest
      if ch = c then [] :: r
      else
        match r with
        | [] => [[ch]]
        | g :: gs => (ch :: g) :: gs

/-- Modelled from the spec: the list of recognized compression suffixes
driving prefix derivation; the spec's only example pattern is `.gz`. -/
def compressionSuffixes : List (List Char) := [['g', 'z']]

/-- Modelled from the spec: `guess_prefix` derivation (implementation not
under `src/`): strip the directory component, split the basename on `.`,
drop the last two segments when the name carries a compression suffix,
otherwise drop the last segment. -/
def guess_pfx (filename : String) : String :=
  let base := (splitOnChar '/' filename.data).getLastD filename.data
  let parts := splitOnChar '.' base
  let kept :=
    if compressionSuffixes.contains (parts.getLastD []) then
      parts.dropLast.dropLast
    else
      parts.dropLast
  ⟨List.intercalate ['.'] kept⟩

/-- Modelled from the spec: constructing a sharder from a filename with
all defaulted options derives the output prefix from the filename. -/
def DatasetSharder.fromFilename (filename : String) : DatasetSharder :=
  { filename := filename
    shard_size := 1000
    write_shards := true
    pfx := guess_pfx filename
    flavor := "pkl.gz"
    index := 0 }

/-- Modelled from the spec and `TestDatasetSharder.test_next_filename`:
`_next_filename` builds `"{prefix}-{index}.{flavor}"` from the current
state and advances the shard counter, returning the filename together
with the updated sharder state. -/
def DatasetSharder.next_filename (s : DatasetSharder) : String × DatasetSharder :=
  (s.pfx ++ "-" ++ toString s.index ++ "." ++ s.flavor,
   { s with index := s.index + 1 })

/-- The list of filenames produced by `k` successive `_next_filename`
calls on a sharder, threading the state from call to call (this is the
loop `TestDatasetSharder.test_next_filename` performs). -/
def DatasetSharder.nextFilenames (s : DatasetSharder) : Nat → List String
  | 0 => []
  | Nat.succ k =>
      let r := s.next_filename
      r.1 :: r.2.nextFilenames k

/-- Modelled from the spec: the iteration protocol of `DatasetSharder`
(implementation not under `src/`). Molecules are accumulated into a
buffer; whenever the buffer reaches `n` molecules a shard of exactly `n`
is emitted and the buffer reset; at source exhaustion a non-empty buffer
is emitted as a final, possibly shorter, shard. -/
def shard_aux (n : Nat) (buf : List Molecule) : List Molecule → List (List Molecule)
  | [] => if buf.isEmpty then [] else [buf]
  | mol :: rest =>
      let buf2 := buf ++ [mol]
      if buf2.length = n then buf2 :: shard_aux n [] rest
      else shard_aux n buf2 rest

/-- Modelled from the spec: iterating a `DatasetSharder` with shard size
`n` over a source of molecules `mols`, collecting all emitted shards. -/
def shardMols (n : Nat) (mols : List Molecule) : List (List Molecule) :=
  shard_aux n [] mols

/-- Reference chunking by repeated take/drop with chunk size `k + 1`,
used to characterise `shard_aux`. -/
def chunksTD (k : Nat) : List Molecule → List (List Molecule)
  | [] => []
  | x :: xs => (x :: xs).take (k + 1) :: chunksTD k (xs.drop k)
termination_by l => l.length
decreasing_by simp [List.length_drop]; omega

theorem chunksTD_nil (k : Nat) : chunksTD k [] = [] := by
  simp [chunksTD]

theorem chunksTD_cons (k : Nat) (x : Molecule) (xs : List Molecule) :
    chunksTD k (x :: xs) = (x :: xs).take (k + 1) :: chunksTD k (xs.drop k) := by
  rw [chunksTD]

theorem chunksTD_unfold (k : Nat) (l : List Molecule) (h : l ≠ []) :
    chunksTD k l = l.take (k + 1) :: chunksTD k (l.drop (k + 1)) := by
  match l with
  | [] => exact absurd rfl h
  | x :: xs => rw [chunksTD_cons]; rfl

theorem chunksTD_eq_nil_iff (k : Nat) (l : List Molecule) :
    chunksTD k l = [] ↔ l = [] := by
  constructor
  · intro h
    match l with
    | [] => rfl
    | x :: xs => rw [chunksTD_cons] at h; exact absurd h (by simp)
  · intro h; subst h; exact chunksTD_nil k

theorem chunksTD_short (k : Nat) (l : List Molecule) (h0 : l ≠ [])
    (h1 : l.length ≤ k + 1) : chunksTD k l = [l] := by
  rw [chunksTD_unfold k l h0, List.take_of_length_le h1,
      List.drop_eq_nil_of_le h1, chunksTD_nil]

theorem shard_aux_eq_chunksTD (k : Nat) (l buf : List Molecule)
    (hb : buf.length ≤ k) :
    shard_aux (k + 1) buf l = chunksTD k (buf ++ l) := by
  induction l generalizing buf with
  | nil =>
      by_cases hbe : buf = []
      · subst hbe; simp [shard_aux, chunksTD_nil]
      · rw [List.append_nil]
        rw [chunksTD_short k buf hbe (Nat.le_succ_of_le hb)]
        simp [shard_aux, hbe]
  | cons m rest ih =>
      show (if (buf ++ [m]).length = k + 1
              then (buf ++ [m]) :: shard_aux (k + 1) [] rest
              else shard_aux (k + 1) (buf ++ [m]) rest)
            = chunksTD k (buf ++ m :: rest)
      have hsplit : buf ++ m :: rest = (buf ++ [m]) ++ rest := by simp
      by_cases hfull : (buf ++ [m]).length = k + 1
      · rw [if_pos hfull, ih [] (Nat.zero_le k), hsplit]
        have hne : (buf ++ [m]) ++ rest ≠ [] := by simp
        rw [chunksTD_unfold k _ hne,
            List.take_left' hfull, List.drop_left' hfull]
        simp
      · rw [if_neg hfull]
        have hlen : (buf ++ [m]).length ≤ k := by
          simp only [List.length_append, List.length_cons, List.length_nil] at hfull ⊢
          omega
        rw [ih (buf ++ [m]) hlen, hsplit]

theorem chunksTD_flatten (k : Nat) (l : List Molecule) :
    (chunksTD k l).flatten = l := by
  have main : ∀ (n : Nat) (l : List Molecule), l.length ≤ n →
      (chunksTD k l).flatten = l := by
    intro n
    induction n with
    | zero =>
        intro l hl
        match l with
        | [] => simp [chunksTD_nil]
    | succ n ih =>
        intro l hl
        match l with
        | [] => simp [chunksTD_nil]
        | x :: xs =>
            rw [chunksTD_cons]
            have hdrop : (xs.drop k).length ≤ n := by
              simp only [List.length_cons] at hl
              simp only [List.length_drop]
              omega
            rw [List.flatten_cons, ih (xs.drop k) hdrop,
                List.take_succ_cons, List.cons_append, List.take_append_drop]
  exact main l.length l (Nat.le_refl _)

theorem chunksTD_length (k : Nat) (l : List Molecule) :
    (chunksTD k l).length = (l.length + k) / (k + 1) := by
  have main : ∀ (n : Nat) (l : List Molecule), l.length ≤ n →
      (chunksTD k l).length = (l.length + k) / (k + 1) := by
    intro n
    induction n with
    | zero =>
        intro l hl
        match l with
        | [] => simp [chunksTD_nil, Nat.div_eq_of_lt (Nat.lt_succ_self k)]
    | succ n ih =>
        intro l hl
        match l with
        | [] => simp [chunksTD_nil, Nat.div_eq_of_lt (Nat.lt_succ_self k)]
        | x :: xs =>
            rw [chunksTD_cons]
            have hdrop : (xs.drop k).length ≤ n := by
              simp only [List.length_cons] at hl
              simp only [List.length_drop]
              omega
            rw [List.length_cons, ih (xs.drop k) hdrop]
            simp only [List.length_drop, List.length_cons]
            by_cases hk : k ≤ xs.length
            · have h1 : xs.length - k + k = xs.length := Nat.sub_add_cancel hk
              have h2 : xs.length + 1 + k = xs.length + (k + 1) := by omega
              rw [h1, h2, Nat.add_div_right _ (Nat.succ_pos k)]
            · have h1 : xs.length - k = 0 := Nat.sub_eq_zero_of_le (Nat.le_of_not_le hk)
              have h2 : (0 + k) / (k + 1) = 0 := Nat.div_eq_of_lt (by omega)
              have h3 : xs.length + 1 + k = (xs.length + 1 - 1) + (k + 1) := by omega
              rw [h1, h2, h3, Nat.add_div_right _ (Nat.succ_pos k),
                  Nat.div_eq_of_lt (by omega)]
  exact main l.length l (Nat.le_refl _)

theorem chunksTD_dropLast_length (k : Nat) (l : List Molecule) :
    ∀ s ∈ (chunksTD k l).dropLast, s.length = k + 1 := by
  have main : ∀ (n : Nat) (l : List Molecule), l.length ≤ n →
      ∀ s ∈ (chunksTD k l).dropLast, s.length = k + 1 := by
    intro n
    induction n with
    | zero =>
        intro l hl
        match l with
        | [] => simp [chunksTD_nil]
    | succ n ih =>
        intro l hl
        match l with
        | [] => simp [chunksTD_nil]
        | x :: xs =>
            rw [chunksTD_cons]
            by_cases hrest : chunksTD k (xs.drop k) = []
            · rw [hrest]; simp
            · intro s hs
              have hdropne : xs.drop k ≠ [] :=
                fun h => hrest (by rw [h, chunksTD_nil])
              have hxk : k < xs.length := by
                by_contra h
                exact hdropne (List.drop_eq_nil_of_le (Nat.le_of_not_lt h))
              match hrl : chunksTD k (xs.drop k) with
              | [] => exact absurd hrl hrest
              | c :: cs =>
                  rw [hrl] at hs
                  rw [List.dropLast_cons₂] at hs
                  rcases List.mem_cons.mp hs with h | h
                  · subst h
                    rw [List.length_take, List.length_cons]
                    omega
                  · have hdrop : (xs.drop k).length ≤ n := by
                      simp only [List.length_cons] at hl
                      simp only [List.length_drop]
                      omega
                    have htail := ih (xs.drop k) hdrop s
                    rw [hrl] at htail
                    exact htail h
  exact main l.length l (Nat.le_refl _)

theorem chunksTD_getLast_length (k : Nat) (l : List Molecule) :
    ∀ t, (chunksTD k l).getLast? = some t →
      t.length = if l.length % (k + 1) = 0 then k + 1 else l.length % (k + 1) := by
  have main : ∀ (n : Nat) (l : List Molecule), l.length ≤ n →
      ∀ t, (chunksTD k l).getLast? = some t →
        t.length = if l.length % (k + 1) = 0 then k + 1 else l.length % (k + 1) := by
    intro n
    induction n with
    | zero =>
        intro l hl
        match l with
        | [] => simp [chunksTD_nil]
    | succ n ih =>
        intro l hl
        match l with
        | [] => simp [chunksTD_nil]
        | x :: xs =>
            intro t ht
            rw [chunksTD_cons] at ht
            by_cases hrest : chunksTD k (xs.drop k) = []
            · rw [hrest, List.getLast?_singleton, Option.some_inj] at ht
              have hxs : xs.length ≤ k := by
                by_contra h
                have hne : xs.drop k ≠ [] := by
                  intro hd
                  have := List.drop_eq_nil_iff.mp hd
                  omega
                exact hne ((chunksTD_eq_nil_iff k (xs.drop k)).mp hrest)
              have htake : (x :: xs).take (k + 1) = x :: xs :=
                List.take_of_length_le (by simp; omega)
              subst ht
              rw [htake, List.length_cons]
              by_cases heq : xs.length = k
              · rw [heq]; simp
              · have hlt : xs.length + 1 < k + 1 := by omega
                rw [Nat.mod_eq_of_lt hlt]
                have hne0 : xs.length + 1 ≠ 0 := Nat.succ_ne_zero _
                simp [hne0]
            · have hgl : (chunksTD k (xs.drop k)).getLast? = some t := by
                match hrl : chunksTD k (xs.drop k) with
                | [] => exact absurd hrl hrest
                | c :: cs =>
                    rw [hrl] at ht
                    rw [List.getLast?_cons_cons] at ht
                    exact ht
              have hdropne : xs.drop k ≠ [] :=
                fun h => hrest (by rw [h, chunksTD_nil])
              have hxk : k < xs.length := by
                by_contra h
                exact hdropne (List.drop_eq_nil_of_le (Nat.le_of_not_lt h))
              have hdrop : (xs.drop k).length ≤ n := by
                simp only [List.length_cons] at hl
                simp only [List.length_drop]
                omega
              have htail := ih (xs.drop k) hdrop t hgl
              rw [List.length_drop] at htail
              have hmod : (x :: xs).length % (k + 1) = (xs.length - k) % (k + 1) := by
                rw [List.length_cons]
                have heq : xs.length + 1 = (xs.length - k) + (k + 1) := by omega
                rw [heq, Nat.add_mod_right]
              rw [hmod]
              exact htail
  exact main l.length l (Nat.le_refl _)

/-- The three molecules the repository's test suite builds in `setUp`,
as the pair of observables this core reads from them. -/
def aspirin : Molecule := ⟨"aspirin", "CC(=O)Oc1ccccc1C(=O)O"⟩

/-- Second test molecule. -/
def ibuprofen : Molecule := ⟨"ibuprofen", "CC(C)Cc1ccc(C(C)C(=O)O)cc1"⟩

/-- Third test molecule. -/
def celecoxib : Molecule := ⟨"celecoxib", "Cc1ccc(-c2cc(C(F)(F)F)nn2-c2ccc(S(N)(=O)=O)cc2)cc1"⟩

/-- The test suite's three-molecule source sequence. -/
def testMols : List Molecule := [aspirin, ibuprofen, celecoxib]

/-- C1: iterating the sharder with positive shard size `n` over a source
of `m` molecules yields `ceil(m/n)` shards, each of size `n` except
possibly the last, whose size is `m % n` (or `n` when `m % n = 0`); the
concatenation of the shards in order is the original molecule sequence,
so every molecule's name property and canonical SMILES are preserved. -/
theorem sharder_iteration_correct (mols : List Molecule) (n : Nat) (h : 0 < n) :
    (shardMols n mols).length = (mols.length + n - 1) / n ∧
    (shardMols n mols).flatten = mols ∧
    (shardMols n mols).flatten.map Molecule.name = mols.map Molecule.name ∧
    (shardMols n mols).flatten.map Molecule.smiles = mols.map Molecule.smiles ∧
    (∀ s ∈ (shardMols n mols).dropLast, s.length = n) ∧
    (∀ t, (shardMols n mols).getLast? = some t →
        t.length = if mols.length % n = 0 then n else mols.length % n) := by
  obtain ⟨k, rfl⟩ : ∃ k, n = k + 1 := ⟨n - 1, by omega⟩
  have he : shardMols (k + 1) mols = chunksTD k mols := by
    rw [shardMols, shard_aux_eq_chunksTD k mols [] (Nat.zero_le k), List.nil_append]
  rw [he]
  refine ⟨?_, chunksTD_flatten k mols, ?_, ?_, chunksTD_dropLast_length k mols,
    chunksTD_getLast_length k mols⟩
  · rw [chunksTD_length]
    congr 1
  · rw [chunksTD_flatten]
  · rw [chunksTD_flatten]

/-- Witness for C1: the concrete leftover scenario of the test suite,
three molecules with shard size 2. -/
theorem sharder_iteration_correct_witness :
    0 < 2 ∧
    ((shardMols 2 testMols).length = (testMols.length + 2 - 1) / 2 ∧
     (shardMols 2 testMols).flatten = testMols ∧
     (shardMols 2 testMols).flatten.map Molecule.name = testMols.map Molecule.name ∧
     (shardMols 2 testMols).flatten.map Molecule.smiles = testMols.map Molecule.smiles ∧
     (∀ s ∈ (shardMols 2 testMols).dropLast, s.length = 2) ∧
     (∀ t, (shardMols 2 testMols).getLast? = some t →
        t.length = if testMols.length % 2 = 0 then 2 else testMols.length % 2)) :=
  ⟨by decide, sharder_iteration_correct testMols 2 (by decide)⟩

/-- The closed form of the filename stream: `k` successive calls starting
from state `s` return the filenames for indices `s.index`, `s.index + 1`,
..., `s.index + k - 1`. -/
theorem nextFilenames_eq (k : Nat) : ∀ (s : DatasetSharder),
    s.nextFilenames k = (List.range k).map
      (fun i => s.pfx ++ "-" ++ toString (s.index + i) ++ "." ++ s.flavor) := by
  induction k with
  | zero => intro s; rfl
  | succ k ih =>
      intro s
      show (s.next_filename).1 :: (s.next_filename).2.nextFilenames k = _
      rw [ih]
      rw [List.range_succ_eq_map, List.map_cons, List.map_map]
      simp only [DatasetSharder.next_filename]
      refine congrArg₂ List.cons ?_ ?_
      · simp
      · apply List.map_congr_left
        intro i hi
        simp only [Function.comp]
        have harith : s.index + 1 + i = s.index + (i + 1) := by omega
        rw [harith]

/-- Sharder state as fixed by the repository's filename test: prefix
`foo`, flavor `bar`, index manually set to 5. -/
def fooSharder : DatasetSharder :=
  { filename := "test.sdf.gz"
    shard_size := 1000
    write_shards := false
    pfx := "foo"
    flavor := "bar"
    index := 5 }

/-- C7 counterexample: starting from index 5, two successive
`_next_filename` calls return `foo-5.bar` and then `foo-6.bar`, two
different strings, so repeated calls without externally advancing the
index do not return the same string: the call itself advances the index
and is not a pure, idempotent reader of the state. -/
theorem next_filename_not_idempotent :
    (fooSharder.next_filename).1 = "foo-5.bar" ∧
    ((fooSharder.next_filename).2.next_filename).1 = "foo-6.bar" ∧
    (fooSharder.next_filename).1 ≠ ((fooSharder.next_filename).2.next_filename).1 :=
  ⟨rfl, rfl, by decide⟩

/-- C7 (amended): `_next_filename` builds `"{prefix}-{shard_index}.{flavor}"`
from the current state, and as a side effect increments `shard_index`, so
`k` repeated calls return the consecutive filenames for indices
`shard_index`, `shard_index + 1`, ..., `shard_index + k - 1`. -/
theorem next_filename_spec (s : DatasetSharder) (k : Nat) :
    (s.next_filename).1 = s.pfx ++ "-" ++ toString s.index ++ "." ++ s.flavor ∧
    (s.next_filename).2 = { s with index := s.index + 1 } ∧
    s.nextFilenames k = (List.range k).map
      (fun i => s.pfx ++ "-" ++ toString (s.index + i) ++ "." ++ s.flavor) :=
  ⟨rfl, rfl, nextFilenames_eq k s⟩

/-- C8: the default output prefix is derived from the source filename by
the `guess_prefix` algorithm (strip the directory, then drop the last two
dot-separated segments under a compression suffix, else the last one);
in particular a sharder built from `../foo.bar.gz` gets prefix `foo`. -/
theorem default_pfx_derivation :
    (∀ fn, (DatasetSharder.fromFilename fn).pfx = guess_pfx fn) ∧
    guess_pfx "../foo.bar.gz" = "foo" ∧
    (DatasetSharder.fromFilename "../foo.bar.gz").pfx = "foo" :=
  ⟨fun _ => rfl, by decide, by decide⟩

/-- The error taxonomy of `SmilesMap.add_mol` validation: bare numeric
identifier without a configured prefix (raised as `TypeError` in the
tests), same identifier with a different structure (`ValueError`), and
same structure under a different identifier (`ValueError`). -/
inductive MapError where
  | invalidInput
  | conflictingId
  | conflictingStructure
deriving DecidableEq, Repr

/-- Modelled from the spec: state of a `SmilesMap` (the class itself is
not under `src/`). `pfx` is the optional identifier prefix, `entries`
the identifier-to-SMILES association, `seen_smiles` the set of SMILES
strings already inserted, kept as a list with membership as the set
observation. -/
structure SmilesMap where
  pfx : Option String
  allow_duplicates : Bool
  entries : List (String × String)
  seen_smiles : List String
deriving DecidableEq, Repr

/-- A fresh `SmilesMap` as built by the given constructor arguments. -/
def SmilesMap.mkMap (p : Option String) (allowDup : Bool) : SmilesMap :=
  { pfx := p, allow_duplicates := allowDup, entries := [], seen_smiles := [] }

/-- A bare identifier in the spec's sense: a string consisting only of
digits. -/
def isBareId (s : String) : Bool :=
  s.data.all Char.isDigit

/-- Modelled from the spec: resolution of a molecule name to the
effective identifier; a bare numeric name needs the configured prefix
prepended and has no effective identifier when no prefix is set. -/
def SmilesMap.effectiveId (m : SmilesMap) (name : String) : Option String :=
  if isBareId name then
    match m.pfx with
    | none => none
    | some p => some (p ++ name)
  else some name

/-- Modelled from the spec: `add_mol`, in the spec's step order. Resolve
the effective identifier (failing on a bare numeric name without a
prefix); reject an identifier already mapped to a different SMILES
string; accept an identical re-insertion as a no-op; with duplicate
checking on, reject a SMILES string already seen; otherwise insert the
entry and record the SMILES string as seen. Errors are modelled as a
returned error code paired with the untouched prior state, mirroring a
raise that happens before any mutation. -/
def SmilesMap.add_mol (m : SmilesMap) (mol : Molecule) : Except MapError Unit × SmilesMap :=
  match m.effectiveId mol.name with
  | none => (.error .invalidInput, m)
  | some ident =>
      match m.entries.lookup ident with
      | some s =>
          if s = mol.smiles then (.ok (), m)
          else (.error .conflictingId, m)
      | none =>
          if !m.allow_duplicates && m.seen_smiles.contains mol.smiles then
            (.error .conflictingStructure, m)
          else
            (.ok (), { m with entries := (ident, mol.smiles) :: m.entries,
                              seen_smiles := mol.smiles :: m.seen_smiles })

/-- Modelled from the spec: `get_map` returns a snapshot of the
identifier-to-SMILES mapping together with the (untouched) state. -/
def SmilesMap.get_map (m : SmilesMap) : List (String × String) × SmilesMap :=
  (m.entries, m)

/-- C3: for every map with no prefix configured, adding a molecule whose
name consists only of digits fails with the invalid-input error. -/
theorem add_mol_bare_id_no_pfx (m : SmilesMap) (mol : Molecule)
    (hp : m.pfx = none) (hb : isBareId mol.name = true) :
    (m.add_mol mol).1 = Except.error MapError.invalidInput := by
  have hid : m.effectiveId mol.name = none := by
    rw [SmilesMap.effectiveId, if_pos hb, hp]
  simp only [SmilesMap.add_mol, hid]

/-- Witness for C3: a fresh unprefixed map rejects the bare CID `2244`. -/
theorem add_mol_bare_id_no_pfx_witness :
    (SmilesMap.mkMap none true).pfx = none ∧
    isBareId (Molecule.mk "2244" "X").name = true ∧
    ((SmilesMap.mkMap none true).add_mol ⟨"2244", "X"⟩).1
      = Except.error MapError.invalidInput :=
  ⟨rfl, by decide, add_mol_bare_id_no_pfx (SmilesMap.mkMap none true) ⟨"2244", "X"⟩
    rfl (by decide)⟩

/-- C4: whenever the molecule's name resolves to an effective identifier
that is already mapped to a different SMILES string, `add_mol` fails with
the conflicting-identifier error. -/
theorem add_mol_conflicting_id (m : SmilesMap) (mol : Molecule) (ident s : String)
    (hid : m.effectiveId mol.name = some ident)
    (hl : m.entries.lookup ident = some s)
    (hne : s ≠ mol.smiles) :
    (m.add_mol mol).1 = Except.error MapError.conflictingId := by
  simp only [SmilesMap.add_mol, hid, hl, if_neg hne]

/-- A map state already holding an entry for `celecoxib`, as reached in
the duplicate-identifier test. -/
def celecoxibMap : SmilesMap :=
  { pfx := none, allow_duplicates := true
    entries := [("celecoxib", "X")], seen_smiles := ["X"] }

/-- Witness for C4: re-adding `celecoxib` with a different structure is
rejected with the conflicting-identifier error. -/
theorem add_mol_conflicting_id_witness :
    celecoxibMap.effectiveId (Molecule.mk "celecoxib" "Y").name = some "celecoxib" ∧
    celecoxibMap.entries.lookup "celecoxib" = some "X" ∧
    ("X" : String) ≠ "Y" ∧
    (celecoxibMap.add_mol ⟨"celecoxib", "Y"⟩).1
      = Except.error MapError.conflictingId :=
  ⟨by decide, by decide, by decide,
   add_mol_conflicting_id celecoxibMap ⟨"celecoxib", "Y"⟩ "celecoxib" "X"
     (by decide) (by decide) (by decide)⟩

/-- C6: every validation error of `add_mol` leaves the map exactly in its
prior state: the rejected entry is inserted neither in `entries` nor in
`seen_smiles`. -/
theorem add_mol_error_frame (m : SmilesMap) (mol : Molecule) (e : MapError)
    (he : (m.add_mol mol).1 = Except.error e) :
    (m.add_mol mol).2 = m := by
  match hid : m.effectiveId mol.name with
  | none => simp only [SmilesMap.add_mol, hid]
  | some ident =>
      match hl : m.entries.lookup ident with
      | some s =>
          by_cases hs : s = mol.smiles
          · simp only [SmilesMap.add_mol, hid, hl, if_pos hs]
          · simp only [SmilesMap.add_mol, hid, hl, if_neg hs]
      | none =>
          by_cases hd : (!m.allow_duplicates && m.seen_smiles.contains mol.smiles) = true
          · simp only [SmilesMap.add_mol, hid, hl, if_pos hd]
          · simp only [SmilesMap.add_mol, hid, hl] at he
            rw [if_neg hd] at he
            simp at he

/-- Witness for C6: the rejected bare-identifier insertion leaves the
fresh map untouched. -/
theorem add_mol_error_frame_witness :
    ((SmilesMap.mkMap none true).add_mol ⟨"2244", "X"⟩).1
      = Except.error MapError.invalidInput ∧
    ((SmilesMap.mkMap none true).add_mol ⟨"2244", "X"⟩).2
      = SmilesMap.mkMap none true :=
  ⟨rfl,
   add_mol_error_frame (SmilesMap.mkMap none true) ⟨"2244", "X"⟩
     MapError.invalidInput rfl⟩

/-- The prefixed map after a first CID insertion, built through the
public interface. -/
def cidMap1 : SmilesMap :=
  ((SmilesMap.mkMap (some "CID") true).add_mol ⟨"2244", "X"⟩).2

/-- C2 counterexample: a map with prefix `CID` that already holds
`CID2244` with structure `X` rejects a molecule named `2244` with
structure `Y`, so a configured prefix and a purely numeric name do not
make `add_mol` succeed on every map state. -/
theorem add_mol_with_pfx_can_fail :
    cidMap1.pfx = some "CID" ∧
    isBareId "2244" = true ∧
    (cidMap1.add_mol ⟨"2244", "Y"⟩).1 = Except.error MapError.conflictingId :=
  ⟨rfl, by decide, rfl⟩

/-- C2 (amended): with prefix `p` configured and a purely numeric name,
when `p ++ name` is not yet present in the entries and — under duplicate
checking — the SMILES string is not yet seen, `add_mol` succeeds and
`get_map` afterwards maps `p ++ name` to the molecule's canonical
SMILES string. -/
theorem add_mol_with_pfx_ok (m : SmilesMap) (mol : Molecule) (p : String)
    (hp : m.pfx = some p) (hb : isBareId mol.name = true)
    (hfresh : m.entries.lookup (p ++ mol.name) = none)
    (hdup : m.allow_duplicates = true ∨ m.seen_smiles.contains mol.smiles = false) :
    (m.add_mol mol).1 = Except.ok () ∧
    ((m.add_mol mol).2.get_map).1.lookup (p ++ mol.name) = some mol.smiles := by
  have hid : m.effectiveId mol.name = some (p ++ mol.name) := by
    rw [SmilesMap.effectiveId, if_pos hb, hp]
  have hcond : ¬((!m.allow_duplicates && m.seen_smiles.contains mol.smiles) = true) := by
    rcases hdup with h | h
    · simp [h]
    · have h' : mol.smiles ∉ m.seen_smiles := by simpa using h
      simp [h']
  refine ⟨?_, ?_⟩
  · simp only [SmilesMap.add_mol, hid, hfresh, if_neg hcond]
  · simp only [SmilesMap.add_mol, hid, hfresh, if_neg hcond, SmilesMap.get_map]
    simp [List.lookup]

/-- Witness for C2 (amended): a fresh `CID`-prefixed map accepts the
bare id `2244` and serves it back under `CID2244`. -/
theorem add_mol_with_pfx_ok_witness :
    ((SmilesMap.mkMap (some "CID") false).pfx = some "CID" ∧
     isBareId (Molecule.mk "2244" "X").name = true ∧
     (SmilesMap.mkMap (some "CID") false).entries.lookup ("CID" ++ "2244") = none) ∧
    (((SmilesMap.mkMap (some "CID") false).add_mol ⟨"2244", "X"⟩).1 = Except.ok () ∧
     (((SmilesMap.mkMap (some "CID") false).add_mol
        ⟨"2244", "X"⟩).2.get_map).1.lookup ("CID" ++ "2244")
       = some (Molecule.mk "2244" "X").smiles) :=
  ⟨⟨rfl, by decide, rfl⟩,
   add_mol_with_pfx_ok (SmilesMap.mkMap (some "CID") false) ⟨"2244", "X"⟩ "CID"
     rfl (by decide) rfl (Or.inr rfl)⟩

/-- The no-duplicates map after inserting `("a","X")` and `("b","S")`
through the public interface. -/
def noDupMap2 : SmilesMap :=
  ((((SmilesMap.mkMap none false).add_mol ⟨"a", "X"⟩).2).add_mol ⟨"b", "S"⟩).2

/-- C5 counterexample: duplicate checking is enabled and the SMILES
string `S` is already recorded under the different identifier `b`, yet
adding molecule `("a","S")` fails with the conflicting-identifier error
(the identifier check runs first), not the conflicting-structure error. -/
theorem duplicate_smiles_error_not_universal :
    noDupMap2.allow_duplicates = false ∧
    noDupMap2.entries.lookup "b" = some "S" ∧
    ("b" : String) ≠ "a" ∧
    noDupMap2.seen_smiles.contains "S" = true ∧
    (noDupMap2.add_mol ⟨"a", "S"⟩).1 = Except.error MapError.conflictingId ∧
    (noDupMap2.add_mol ⟨"a", "S"⟩).1 ≠ Except.error MapError.conflictingStructure := by
  refine ⟨rfl, rfl, by decide, rfl, rfl, ?_⟩
  intro h
  have h1 : (noDupMap2.add_mol ⟨"a", "S"⟩).1 = Except.error MapError.conflictingId := rfl
  rw [h1] at h
  exact (by decide : MapError.conflictingId ≠ MapError.conflictingStructure)
    (Except.error.inj h)

/-- C5 (amended): with duplicate checking enabled, a molecule whose
SMILES string is already in `seen_smiles` is rejected with the
conflicting-structure error, provided its effective identifier resolves
and is not itself already present (so the earlier checks do not fire; in
that case every prior recording of the string is necessarily under a
different identifier). -/
theorem add_mol_conflicting_smiles (m : SmilesMap) (mol : Molecule) (ident : String)
    (hdup : m.allow_duplicates = false)
    (hid : m.effectiveId mol.name = some ident)
    (hfresh : m.entries.lookup ident = none)
    (hseen : m.seen_smiles.contains mol.smiles = true) :
    (m.add_mol mol).1 = Except.error MapError.conflictingStructure := by
  have hcond : (!m.allow_duplicates && m.seen_smiles.contains mol.smiles) = true := by
    rw [hdup, hseen]; rfl
  simp only [SmilesMap.add_mol, hid, hfresh, if_pos hcond]

/-- A no-duplicates map already holding aspirin's structure, used to
witness the conflicting-structure rejection of `fakedrug`. -/
def fakeMap : SmilesMap :=
  { pfx := none, allow_duplicates := false
    entries := [("aspirin", "S")], seen_smiles := ["S"] }

/-- Witness for C5 (amended): `fakedrug` re-uses aspirin's structure and
is rejected with the conflicting-structure error. -/
theorem add_mol_conflicting_smiles_witness :
    (fakeMap.allow_duplicates = false ∧
     fakeMap.effectiveId (Molecule.mk "fakedrug" "S").name = some "fakedrug" ∧
     fakeMap.entries.lookup "fakedrug" = none ∧
     fakeMap.seen_smiles.contains (Molecule.mk "fakedrug" "S").smiles = true) ∧
    (fakeMap.add_mol ⟨"fakedrug", "S"⟩).1 = Except.error MapError.conflictingStructure :=
  ⟨⟨rfl, by decide, rfl, rfl⟩,
   add_mol_conflicting_smiles fakeMap ⟨"fakedrug", "S"⟩ "fakedrug"
     rfl (by decide) rfl rfl⟩

/-- C9: `get_map` returns the identifier-to-SMILES snapshot with no side
effect: the state it hands back is the very map it was called on, and
every subsequent operation behaves exactly as if `get_map` had never
been called. -/
theorem get_map_snapshot (m : SmilesMap) :
    (m.get_map).1 = m.entries ∧
    (m.get_map).2 = m ∧
    (∀ mol, ((m.get_map).2).add_mol mol = m.add_mol mol) :=
  ⟨rfl, rfl, fun _ => rfl⟩

/-- State of `SimpleDescriptors` from `pande_gas/features/basic.py`:
the two parallel lists filled by `__init__`. The molecule type and the
descriptor value type are opaque parameters of the external chemistry
toolkit. -/
structure SimpleDescriptors (Mol Val : Type) where
  descriptors : List String
  functions : List (Mol → Val)

/-- The `SimpleDescriptors.__init__` loop: for each
`(descriptor, function)` pair of the external registry
`Descriptors.descList`, in order, append the name to `descriptors` and
the function to `functions`. -/
def SimpleDescriptors.init {Mol Val : Type}
    (descList : List (String × (Mol → Val))) : SimpleDescriptors Mol Val :=
  descList.foldl
    (fun st df =>
      { descriptors := st.descriptors ++ [df.1]
        functions := st.functions ++ [df.2] })
    { descriptors := [], functions := [] }

/-- `SimpleDescriptors._featurize`: loop over `self.functions` appending
`function(mol)` to the result list. -/
def SimpleDescriptors.featurize {Mol Val : Type}
    (sd : SimpleDescriptors Mol Val) (mol : Mol) : List Val :=
  sd.functions.foldl (fun acc f => acc ++ [f mol]) []

/-- `MolecularWeight._featurize`: compute the exact molecular weight via
the external `Descriptors.ExactMolWt` and wrap it in a one-element
list. -/
def MolecularWeight.featurize {Mol Val : Type}
    (exactMolWt : Mol → Val) (mol : Mol) : List Val :=
  let wt := exactMolWt mol
  [wt]

theorem foldl_append_singleton {α β : Type} (g : α → β) (l : List α) :
    ∀ acc : List β, l.foldl (fun acc x => acc ++ [g x]) acc = acc ++ l.map g := by
  induction l with
  | nil => intro acc; simp
  | cons x xs ih => intro acc; simp [ih]

theorem simpleDescriptors_init_fold {Mol Val : Type}
    (descList : List (String × (Mol → Val))) :
    ∀ st : SimpleDescriptors Mol Val,
      descList.foldl
        (fun st df =>
          { descriptors := st.descriptors ++ [df.1]
            functions := st.functions ++ [df.2] }) st
        = { descriptors := st.descriptors ++ descList.map Prod.fst
            functions := st.functions ++ descList.map Prod.snd } := by
  induction descList with
  | nil => intro st; simp
  | cons d ds ih => intro st; simp [ih]

/-- C10: `SimpleDescriptors.__init__` fills `descriptors` and
`functions` as parallel lists in the order of the external registry;
`_featurize` returns one value per registered descriptor, the value at
position `i` being the function paired with descriptor name `i` applied
to the molecule; and `MolecularWeight._featurize` returns the
one-element list holding the molecule's exact molecular weight. -/
theorem featurizers_correct {Mol Val : Type}
    (descList : List (String × (Mol → Val))) (exactMolWt : Mol → Val) (mol : Mol) :
    (SimpleDescriptors.init descList).descriptors = descList.map Prod.fst ∧
    (SimpleDescriptors.init descList).functions = descList.map Prod.snd ∧
    (SimpleDescriptors.init descList).featurize mol
      = descList.map (fun df => df.2 mol) ∧
    ((SimpleDescriptors.init descList).featurize mol).length = descList.length ∧
    MolecularWeight.featurize exactMolWt mol = [exactMolWt mol] := by
  have hinit := simpleDescriptors_init_fold descList
    { descriptors := [], functions := [] }
  have hd : (SimpleDescriptors.init descList).descriptors = descList.map Prod.fst := by
    rw [SimpleDescriptors.init, hinit]
    simp
  have hf : (SimpleDescriptors.init descList).functions = descList.map Prod.snd := by
    rw [SimpleDescriptors.init, hinit]
    simp
  have hfeat : (SimpleDescriptors.init descList).featurize mol
      = descList.map (fun df => df.2 mol) := by
    rw [SimpleDescriptors.featurize, hf, foldl_append_singleton]
    simp [List.map_map, Function.comp]
  refine ⟨hd, hf, hfeat, ?_, rfl⟩
  rw [hfeat, List.length_map]
